import Mathlib

/-
Verification of the dataclass-click declaration-to-parameter translation layer
(src/dataclass_click/dataclass_click.py).

The development shallowly embeds the resolution pipeline of the library:
a record type's field annotations (each a deferred call to the external CLI
engine's option/argument declarator) are scanned, names are synthesized,
parameter types are inferred from the field type hints, requiredness defaults
are derived, and the record-construction wrapper reassembles the record from
collected keyword values at invocation time.

Python type hints are embedded as an inductive `Hint` mirroring what
`typing.get_origin` / `typing.get_args` report: a PEP 604 union (`types.UnionType`),
a `typing.Union`/`typing.Optional` union (distinct origin on the supported
Python versions), fixed tuples (whose argument list may contain the `...`
ellipsis marker), `NoneType`, and opaque base types identified by name.

Python dicts keyed by strings are embedded as association lists with dict
semantics (first occurrence wins; keys of real dicts are unique, which the
theorems assume where it matters). The external CLI engine (click) is out of
scope per the specification; its trial-parameter introspection
(`click.core.Option` / `click.core.Argument` construction followed by reading
`is_flag` / `multiple` / `nargs`) is modelled as `build_option_stub` /
`build_argument_stub` per the fixed contract the spec assigns to it.
-/

/-- Embedding of the two declarators: `click.option` and `click.argument`
(the `callable` field of `_DelayedCall`). -/
inductive Declarator where
  | option
  | argument
deriving DecidableEq, Repr

/-- Embedding of `click.ParamType` values: the seven built-in registry values of
`_TYPE_INFERENCE` (dataclass_click.py lines 30-38) plus opaque custom instances. -/
inductive ParamType where
  | INT
  | STRING
  | FLOAT
  | BOOL
  | UUID
  | DATETIME
  | PATH
  | custom (name : String)
deriving DecidableEq, Repr

/-- Result of `_eval_type`: either one parameter-type descriptor or a tuple of
descriptors (source return annotation `click.ParamType | tuple[click.ParamType, ...]`). -/
inductive ClickType where
  | single (t : ParamType)
  | tupleOf (ts : List ParamType)
deriving DecidableEq, Repr

/-- Embedding of the heterogeneous values stored in a binding's keyword
arguments: booleans (`required`, `is_flag`, `multiple`), integers (`nargs`),
parameter types (`type`), and opaque other values (e.g. `default` payloads). -/
inductive KwVal where
  | boolVal (b : Bool)
  | intVal (n : Int)
  | typeVal (t : ClickType)
  | otherVal (n : Nat)
deriving DecidableEq, Repr

/-- Embedding of `_DelayedCall` (dataclass_click.py lines 41-49): the deferred
declarator invocation attached to one field, with mutable positional and
keyword argument containers. -/
structure DelayedCall where
  callable : Declarator
  args : List String
  kwargs : List (String × KwVal)
deriving DecidableEq, Repr

/-- Embedding of Python type hints as reported by `typing.get_origin` and
`typing.get_args`. `unionType` is the PEP 604 form (origin `types.UnionType`);
`typingUnion` is the `typing.Union` / `typing.Optional` form, whose origin is
`typing.Union`, a different object from `types.UnionType` on the Python
versions this library supports. `ellipsis` stands for the `...` marker that
`typing.get_args` reports inside `tuple[X, ...]`. -/
inductive Hint where
  | base (name : String)
  | noneType
  | ellipsis
  | unionType (args : List Hint)
  | typingUnion (args : List Hint)
  | tupleHint (args : List Hint)

mutual

/-- Structural equality on embedded hints, playing the role of Python's `==` /
hashing on type objects for registry dict lookups. -/
def Hint.beq : Hint → Hint → Bool
  | .base a, .base b => a == b
  | .noneType, .noneType => true
  | .ellipsis, .ellipsis => true
  | .unionType as, .unionType bs => Hint.beqList as bs
  | .typingUnion as, .typingUnion bs => Hint.beqList as bs
  | .tupleHint as, .tupleHint bs => Hint.beqList as bs
  | _, _ => false

/-- Pointwise `Hint.beq` on hint lists. -/
def Hint.beqList : List Hint → List Hint → Bool
  | [], [] => true
  | a :: as, b :: bs => Hint.beq a b && Hint.beqList as bs
  | _, _ => false

end

/-- Test for the `types.NoneType` hint (Python `arg != types.NoneType` / `in` checks). -/
def Hint.isNoneType : Hint → Bool
  | .noneType => true
  | _ => false

/-- ASCII-faithful embedding of Python `str.lower()` for identifier-like strings. -/
def str_lower (s : String) : String := String.mk (s.data.map Char.toLower)

/-- Embedding of Python `str.replace("_", "-")`: a single-character pattern
replacement, realized as a character map. -/
def str_replace_underscore (s : String) : String :=
  String.mk (s.data.map (fun c => if c = '_' then '-' else c))

/-- Embedding of Python `str.startswith(p)` (note `s.startswith("")` is `True`
for every `s`, including the empty string). -/
def str_starts_with (s p : String) : Bool := p.data.isPrefixOf s.data

/-- Character membership in a string (used by the modelled click name splitting
on `/` for flag secondary names). -/
def str_has_char (s : String) (c : Char) : Bool := s.data.contains c

/-- Embedding of `_option_name` (dataclass_click.py lines 286-288):
`"--" + attribute_name.lower().replace("_", "-")`. -/
def option_name (attribute_name : String) : String :=
  "--" ++ str_replace_underscore (str_lower attribute_name)

/-- Dict lookup on a string-keyed association list (first occurrence). -/
def dict_get {α : Type} (d : List (String × α)) (k : String) : Option α :=
  match d with
  | [] => none
  | p :: rest => if p.1 == k then some p.2 else dict_get rest k

/-- Dict key-membership test (`k in d`). -/
def dict_contains {α : Type} (d : List (String × α)) (k : String) : Bool :=
  d.any (fun p => p.1 == k)

/-- Dict assignment `d[k] = v`: overwrite in place when the key exists,
append otherwise. -/
def dict_set {α : Type} (d : List (String × α)) (k : String) (v : α) :
    List (String × α) :=
  if d.any (fun p => p.1 == k) then
    d.map (fun p => if p.1 == k then (p.1, v) else p)
  else d ++ [(k, v)]

/-- Embedding of `_strip_optional` (dataclass_click.py lines 244-259): when the
hint's origin is `types.UnionType` and `NoneType` is among its arguments,
remove every `NoneType`; a single survivor is returned bare, otherwise the
survivors are re-joined with `operator.or_` into a PEP 604 union again. Any
other hint (including `typing.Optional[...]`, whose origin is `typing.Union`,
not `types.UnionType`) is returned unchanged with `False`. -/
def strip_optional (attribute_type : Hint) : Bool × Hint :=
  match attribute_type with
  | .unionType args =>
    if args.any (fun a => a.isNoneType) then
      match args.filter (fun a => !a.isNoneType) with
      | [x] => (true, x)
      | args_reduced => (true, .unionType args_reduced)
    else (false, attribute_type)
  | _ => (false, attribute_type)

/-- Type-inference registry: the embedding of the `_TYPE_INFERENCE` dict,
mapping python type hints to click parameter-type descriptors. -/
abbrev Registry : Type := List (Hint × ParamType)

/-- Registry lookup `inferences[hint]`, `none` standing for a `KeyError`. -/
def registry_get (reg : Registry) (h : Hint) : Option ParamType :=
  match reg with
  | [] => none
  | p :: rest => if Hint.beq p.1 h then some p.2 else registry_get rest h

/-- Registry key-membership test (`python_type in _TYPE_INFERENCE`). -/
def registry_contains (reg : Registry) (h : Hint) : Bool :=
  List.any reg (fun p => Hint.beq p.1 h)

/-- Registry assignment `_TYPE_INFERENCE[python_type] = click_param_type`. -/
def registry_set (reg : Registry) (h : Hint) (v : ParamType) : Registry :=
  if List.any reg (fun p => Hint.beq p.1 h) then
    List.map (fun p => if Hint.beq p.1 h then (p.1, v) else p) reg
  else reg ++ [(h, v)]

/-- Registry removal `_TYPE_INFERENCE.pop(python_type, None)`. -/
def registry_pop (reg : Registry) (h : Hint) : Registry :=
  List.filter (fun p => !Hint.beq p.1 h) reg

/-- Embedding of the seeded `_TYPE_INFERENCE` registry
(dataclass_click.py lines 30-38). -/
def default_type_inference : Registry :=
  [(.base "int", .INT), (.base "str", .STRING), (.base "float", .FLOAT),
   (.base "bool", .BOOL), (.base "UUID", .UUID), (.base "datetime", .DATETIME),
   (.base "Path", .PATH)]

/-- Merged inference mapping used by `_patch_click_types`
(dataclass_click.py lines 177-181): a copy of the global registry updated by
the per-call overrides when those are supplied (override wins on collision). -/
def merge_inferences (overrides : Option Registry) : Registry :=
  match overrides with
  | some o => o.foldl (fun acc p => registry_set acc p.1 p.2) default_type_inference
  | none => default_type_inference

/-- Introspection result of a trial parameter: the three attributes the source
reads from a freshly constructed `click.core.Option` / `click.core.Argument`. -/
structure Stub where
  isFlag : Bool
  multiple : Bool
  nargs : Int
deriving DecidableEq, Repr

/-- Boolean keyword argument read, wrong-typed or missing values giving `none`. -/
def kw_bool (kw : List (String × KwVal)) (k : String) : Option Bool :=
  match dict_get kw k with
  | some (.boolVal b) => some b
  | _ => none

/-- Modelled nargs of a trial click parameter: an explicit `nargs` keyword wins;
otherwise a tuple `type` fixes the arity; otherwise 1. This follows the fixed
contract the spec assigns to the external engine's introspection constructor. -/
def stub_nargs (kw : List (String × KwVal)) : Int :=
  match dict_get kw "nargs" with
  | some (.intVal n) => n
  | _ =>
    match dict_get kw "type" with
    | some (.typeVal (.tupleOf ts)) => (ts.length : Int)
    | _ => 1

/-- Modelled trial construction of `click.core.Option` (the external engine's
introspection constructor, a fixed black box per the spec): `is_flag` follows an
explicit keyword when given, else the presence of `flag_value` or of a
secondary `/`-name; `multiple` defaults to false; `nargs` per `stub_nargs`. -/
def build_option_stub (args : List String) (kw : List (String × KwVal)) : Stub :=
  { isFlag :=
      (kw_bool kw "is_flag").getD
        (dict_contains kw "flag_value" || args.any (fun n => str_has_char n '/'))
    multiple := (kw_bool kw "multiple").getD false
    nargs := stub_nargs kw }

/-- Modelled trial construction of `click.core.Argument`: arguments are never
boolean flags; `multiple` and `nargs` as for options. -/
def build_argument_stub (_args : List String) (kw : List (String × KwVal)) : Stub :=
  { isFlag := false
    multiple := (kw_bool kw "multiple").getD false
    nargs := stub_nargs kw }

/-- Trial stub for a binding, dispatching on its declarator exactly as
`_patch_click_types` does (dataclass_click.py lines 188-194). -/
def trial_stub (b : DelayedCall) : Stub :=
  match b.callable with
  | .option => build_option_stub b.args b.kwargs
  | .argument => build_argument_stub b.args b.kwargs

/-- Payload of the `TypeError` raised by `_eval_type`: the message
`"Could not infer ParamType for <key> type <hint>. Explicitly annotate type=<type>"`
names the field and the offending hint, which this structure records. -/
structure InferError where
  key : String
  hint : Hint

/-- Scalar / fixed-arity part of `_eval_type` (dataclass_click.py lines 211-218),
reached after the repeated/variadic unwrap: with fixed arity greater than one a
tuple-origin hint has each member looked up independently (a missing member is
a `KeyError` caught and turned into the inference `TypeError`), while a
non-tuple hint falls through to the same error; with arity at most one the hint
itself is looked up. No comparison of the tuple's length against `nargs` is
performed by the source. -/
def eval_type_fixed (key : String) (hint : Hint) (stub : Stub) (inferences : Registry) :
    Except InferError ClickType :=
  if stub.nargs > 1 then
    match hint with
    | .tupleHint targs =>
      match targs.mapM (fun a => registry_get inferences a) with
      | some ts => .ok (.tupleOf ts)
      | none => .error ⟨key, hint⟩
    | _ => .error ⟨key, hint⟩
  else
    match registry_get inferences hint with
    | some t => .ok (.single t)
    | none => .error ⟨key, hint⟩

/-- Embedding of `_eval_type` (dataclass_click.py lines 198-218). A repeated or
variadic trial (`stub.multiple or stub.nargs == -1`) requires the hint to be
the two-argument tuple form `tuple[X, ...]` and unwraps it to `X` (raising the
inference error naming the original hint otherwise); then the fixed-arity logic
of `eval_type_fixed` runs on the (possibly unwrapped) hint. -/
def eval_type (key : String) (hint : Hint) (stub : Stub) (inferences : Registry) :
    Except InferError ClickType :=
  if stub.multiple || stub.nargs == -1 then
    match hint with
    | .tupleHint [elem, .ellipsis] => eval_type_fixed key elem stub inferences
    | _ => .error ⟨key, hint⟩
  else eval_type_fixed key hint stub inferences

/-- Per-field body of `_patch_names` (dataclass_click.py lines 162-165): for an
option whose positional arguments contain no name satisfying
`name.startswith("")`, prepend the synthesized `--` name; then unconditionally
prepend the field name itself. The tautological `startswith("")` test is
embedded exactly as written in the source. -/
def patch_name_one (key : String) (b : DelayedCall) : DelayedCall :=
  let b1 :=
    if b.callable == .option && !(b.args.any (fun name => str_starts_with name "")) then
      { b with args := option_name key :: b.args }
    else b
  { b1 with args := key :: b1.args }

/-- Embedding of `_patch_names` (dataclass_click.py lines 153-165), applied to
the ordered field table. -/
def patch_names (anns : List (String × DelayedCall)) : List (String × DelayedCall) :=
  anns.map (fun p => (p.1, patch_name_one p.1 p.2))

/-- Per-field body of `_patch_click_types` (dataclass_click.py lines 184-195):
with an explicit `type` keyword the binding is untouched; a boolean-flag option
trial skips inference; otherwise the inferred type of the optional-stripped
hint is assigned to the `type` keyword, errors propagating. -/
def patch_type_one (inferences : Registry) (key : String) (raw_hint : Hint)
    (b : DelayedCall) : Except InferError DelayedCall :=
  let hint := (strip_optional raw_hint).2
  if dict_contains b.kwargs "type" then .ok b
  else
    let stub := trial_stub b
    if b.callable == .option && stub.isFlag then .ok b
    else
      match eval_type key hint stub inferences with
      | .ok t => .ok { b with kwargs := dict_set b.kwargs "type" (.typeVal t) }
      | .error e => .error e

/-- Embedding of the `_patch_click_types` loop (dataclass_click.py lines 168-195)
over the field table, the first inference failure aborting the pass as the
raised `TypeError` aborts the Python loop. -/
def patch_click_types (hints : String → Hint) (inferences : Registry) :
    List (String × DelayedCall) → Except InferError (List (String × DelayedCall))
  | [] => .ok []
  | (key, b) :: rest =>
    match patch_type_one inferences key (hints key) b with
    | .error e => .error e
    | .ok b1 =>
      match patch_click_types hints inferences rest with
      | .error e => .error e
      | .ok rest1 => .ok ((key, b1) :: rest1)

/-- Per-field body of `_patch_required` (dataclass_click.py lines 230-241): when
the hint is not a PEP 604 optional union, the binding is an option, neither
`required` nor `default` is set, and the trial option is neither a boolean flag
nor multi-valued, set `required=True`; otherwise the binding is left alone. -/
def patch_required_one (raw_hint : Hint) (b : DelayedCall) : DelayedCall :=
  if !(strip_optional raw_hint).1 then
    if b.callable == .option then
      if !dict_contains b.kwargs "required" && !dict_contains b.kwargs "default" then
        let stub := build_option_stub b.args b.kwargs
        if !stub.isFlag && !stub.multiple then
          { b with kwargs := dict_set b.kwargs "required" (.boolVal true) }
        else b
      else b
    else b
  else b

/-- Embedding of `_patch_required` (dataclass_click.py lines 221-241) over the
field table. -/
def patch_required (hints : String → Hint) (anns : List (String × DelayedCall)) :
    List (String × DelayedCall) :=
  anns.map (fun p => (p.1, patch_required_one (hints p.1) p.2))

/-- Embedding of the decoration-time resolution pass run by `dataclass_click`
(dataclass_click.py lines 145-150) on the collected field table: name patching,
then type inference (which can fail, making the decoration call itself fail),
then requiredness patching. `hints` plays the role of
`typing.get_type_hints(arg_class)` restricted to the annotated fields. -/
def dataclass_click_resolve (hints : String → Hint) (overrides : Option Registry)
    (meta : List (String × DelayedCall)) :
    Except InferError (List (String × DelayedCall)) :=
  match patch_click_types hints (merge_inferences overrides) (patch_names meta) with
  | .error e => .error e
  | .ok anns => .ok (patch_required hints anns)

/-- Runtime values flowing through the record-construction wrapper. `dontPass`
embeds the `DONT_PASS` sentinel (the sole member of `DontPassType`,
dataclass_click.py lines 60-65); `payload` embeds every other Python value
opaquely. -/
inductive Val where
  | dontPass
  | payload (n : Nat)
deriving DecidableEq, Repr

/-- Embedding of `kwargs.pop(key, DONT_PASS)` on a dict of collected keyword
values: the value of the first entry for `key` (or the sentinel when absent)
together with the mapping with every `key` entry removed. -/
def dict_pop (kwargs : List (String × Val)) (key : String) :
    Val × List (String × Val) :=
  match dict_get kwargs key with
  | some v => (v, kwargs.filter (fun q => !(q.1 == key)))
  | none => (.dontPass, kwargs)

/-- Embedding of the wrapper's collection loop (dataclass_click.py
lines 125-130): for each field name in order, pop the keyword value with the
don't-pass sentinel as default, keeping only non-sentinel values as
construction arguments. Returns the construction arguments together with the
remaining keyword mapping. -/
def collect_ctor_args (keys : List String) (kwargs : List (String × Val)) :
    List (String × Val) × List (String × Val) :=
  match keys with
  | [] => ([], kwargs)
  | key :: rest =>
    let popped := dict_pop kwargs key
    let further := collect_ctor_args rest popped.2
    if popped.1 = .dontPass then further
    else ((key, popped.1) :: further.1, further.2)

/-- Embedding of `decorator.wrapper` (dataclass_click.py lines 124-137): collect
the construction arguments, build the record with the factory (`factory_` is
the supplied factory or else the record type's own constructor, line 145), then
either deliver the record under `kw_name` or prepend it to the positional
arguments, and return the wrapped function's result unchanged. -/
def wrapper_call {β : Type} (keys : List String)
    (arg_class : List (String × Val) → Val)
    (factory : Option (List (String × Val) → Val))
    (kw_name : Option String)
    (func : List Val → List (String × Val) → β)
    (args : List Val) (kwargs : List (String × Val)) : β :=
  let factory_res := factory.getD arg_class
  let collected := collect_ctor_args keys kwargs
  let arg_class_object := factory_res collected.1
  match kw_name with
  | some name => func args (dict_set collected.2 name arg_class_object)
  | none => func (arg_class_object :: args) collected.2

/-- Errors raised by `register_type_inference`: `ValueError` for a registration
conflict without `override_okay`, `NotImplementedError` for an optional hint. -/
inductive RegError where
  | valueError (t : Hint)
  | notImplementedError (t : Hint)

/-- Embedding of `register_type_inference` (dataclass_click.py lines 291-321) as
a transition on the process-wide registry: the conflict check runs first, then
the optional check; only then is the entry installed (or removed when the
parameter type is `None`). The returned registry is the input one whenever an
error is raised. -/
def register_type_inference (reg : Registry) (python_type : Hint)
    (click_param_type : Option ParamType) (override_okay : Bool) :
    Except RegError Unit × Registry :=
  if !override_okay && registry_contains reg python_type then
    (.error (.valueError python_type), reg)
  else if (strip_optional python_type).1 then
    (.error (.notImplementedError python_type), reg)
  else
    match click_param_type with
    | none => (.ok (), registry_pop reg python_type)
    | some t => (.ok (), registry_set reg python_type t)

/-- Mutable object heap for the aliasing-sensitive part of the development: the
`_DelayedCall` objects attached to a record type's annotations live at numbered
cells, `_collect_click_annotations` copies them (`dataclasses.replace` with a
copied kwargs dict, dataclass_click.py lines 280-283) into freshly allocated
cells, and the patch passes mutate those copies in place. -/
structure Heap where
  store : Nat → DelayedCall
  next : Nat

/-- Heap read of the binding object at a cell. -/
def Heap.read (h : Heap) (i : Nat) : DelayedCall := h.store i

/-- Heap write: in-place mutation of the binding object at a cell. -/
def Heap.write (h : Heap) (i : Nat) (b : DelayedCall) : Heap :=
  { h with store := fun j => if j = i then b else h.store j }

/-- Heap allocation of a fresh object holding a copy of the given binding. -/
def Heap.alloc (h : Heap) (b : DelayedCall) : Nat × Heap :=
  (h.next,
   { store := fun j => if j = h.next then b else h.store j, next := h.next + 1 })

/-- Values of the binding objects referenced by a field table, in order. -/
def read_meta (cm : List (String × Nat)) (h : Heap) : List (String × DelayedCall) :=
  cm.map (fun p => (p.1, h.read p.2))

/-- Allocation of fresh copies of a list of binding values. -/
def alloc_all : List (String × DelayedCall) → Heap → List (String × Nat) × Heap
  | [], h => ([], h)
  | (k, b) :: rest, h =>
    let cell := h.alloc b
    let further := alloc_all rest cell.2
    ((k, cell.1) :: further.1, further.2)

/-- Heap-level embedding of `_collect_click_annotations`'s copying
comprehension (dataclass_click.py lines 280-283): read the pristine annotation
objects of the record type and allocate a fresh copy of each for this
resolution pass. -/
def collect_heap (cm : List (String × Nat)) (h : Heap) :
    List (String × Nat) × Heap :=
  alloc_all (read_meta cm h) h

/-- In-place per-field mutation sweep shared by the heap forms of
`_patch_names` and `_patch_required`: each pass's loop rebinds the fields of
the pass's own binding objects. -/
def apply_at (f : String → DelayedCall → DelayedCall) :
    List (String × Nat) → Heap → Heap
  | [], h => h
  | (k, i) :: rest, h => apply_at f rest (h.write i (f k (h.read i)))

/-- Heap-level embedding of the `_patch_click_types` loop, mutating the pass's
binding objects in place and aborting on the first inference failure. -/
def patch_types_heap (hints : String → Hint) (inferences : Registry) :
    List (String × Nat) → Heap → Except InferError Heap
  | [], h => .ok h
  | (k, i) :: rest, h =>
    match patch_type_one inferences k (hints k) (h.read i) with
    | .error e => .error e
    | .ok b1 => patch_types_heap hints inferences rest (h.write i b1)

/-- Heap-level embedding of one full resolution pass of `dataclass_click`
(dataclass_click.py lines 145-150): copy the record type's annotation objects,
then run the three mutating patch passes on the copies. Returns the field
table of this pass (field names with the cells owned by the pass) and the
final heap. -/
def resolve_heap (hints : String → Hint) (overrides : Option Registry)
    (cm : List (String × Nat)) (h : Heap) :
    Except InferError (List (String × Nat) × Heap) :=
  let collected := collect_heap cm h
  let h2 := apply_at patch_name_one collected.1 collected.2
  match patch_types_heap hints (merge_inferences overrides) collected.1 h2 with
  | .error e => .error e
  | .ok h3 =>
    .ok (collected.1, apply_at (fun k b => patch_required_one (hints k) b) collected.1 h3)

/-- Field table produced by a heap resolution pass (empty on inference failure). -/
def resolve_heap_ids (hints : String → Hint) (overrides : Option Registry)
    (cm : List (String × Nat)) (h : Heap) : List (String × Nat) :=
  match resolve_heap hints overrides cm h with
  | .ok p => p.1
  | .error _ => []

/-- Final heap of a heap resolution pass (the input heap on inference failure). -/
def resolve_heap_out (hints : String → Hint) (overrides : Option Registry)
    (cm : List (String × Nat)) (h : Heap) : Heap :=
  match resolve_heap hints overrides cm h with
  | .ok p => p.2
  | .error _ => h

/-- String disequality transported to the boolean equality test. -/
theorem str_beq_false_of_ne {a b : String} (h : a ≠ b) : (a == b) = false := by
  by_cases hc : (a == b) = true
  · exact absurd (by simpa using hc) h
  · simpa using hc

/-- Lookup under the overwritten key after the overwriting map of `dict_set`,
given the key occurs in the dict. -/
theorem dict_get_map_set_self {α : Type} :
    ∀ (d : List (String × α)) (k : String) (v : α),
      d.any (fun p => p.1 == k) = true →
      dict_get (d.map (fun p => if p.1 == k then (p.1, v) else p)) k = some v
  | [], _, _, h => by simp at h
  | p :: rest, k, v, h => by
    by_cases hp : (p.1 == k) = true
    · simp [dict_get, hp]
    · have h1 : rest.any (fun q => q.1 == k) = true := by
        simpa [List.any_cons, hp] using h
      simpa [dict_get, hp] using dict_get_map_set_self rest k v h1

/-- Lookup under a different key is unaffected by the overwriting map of
`dict_set` (entries keep their keys). -/
theorem dict_get_map_set_ne {α : Type} :
    ∀ (d : List (String × α)) (k k1 : String) (v : α), k1 ≠ k →
      dict_get (d.map (fun p => if p.1 == k then (p.1, v) else p)) k1 = dict_get d k1
  | [], _, _, _, _ => rfl
  | p :: rest, k, k1, v, hne => by
    have hrec := dict_get_map_set_ne rest k k1 v hne
    rw [List.map_cons]
    by_cases hpk : (p.1 == k) = true
    · have hp1 : ¬((p.1 == k1) = true) := by
        have hp : p.1 = k := by simpa using hpk
        intro hcon
        exact hne (hp ▸ (by simpa using hcon : p.1 = k1)).symm
      rw [if_pos hpk]
      simp only [dict_get]
      rw [if_neg hp1, if_neg hp1]
      exact hrec
    · rw [if_neg hpk]
      simp only [dict_get]
      by_cases hp1 : (p.1 == k1) = true
      · rw [if_pos hp1, if_pos hp1]
      · rw [if_neg hp1, if_neg hp1]
        exact hrec

/-- Lookup under the appended key when `dict_set` appends a fresh entry. -/
theorem dict_get_append_self {α : Type} :
    ∀ (d : List (String × α)) (k : String) (v : α),
      d.any (fun p => p.1 == k) = false →
      dict_get (d ++ [(k, v)]) k = some v
  | [], k, v, _ => by simp [dict_get]
  | p :: rest, k, v, h => by
    rw [List.any_cons] at h
    have hparts := Bool.or_eq_false_iff.mp h
    rw [List.cons_append]
    simp only [dict_get]
    rw [if_neg (by simp [hparts.1])]
    exact dict_get_append_self rest k v hparts.2

/-- Lookup under a different key is unaffected when `dict_set` appends. -/
theorem dict_get_append_ne {α : Type} :
    ∀ (d : List (String × α)) (k k1 : String) (v : α), k1 ≠ k →
      dict_get (d ++ [(k, v)]) k1 = dict_get d k1
  | [], k, k1, v, hne => by
    simp [dict_get, str_beq_false_of_ne (fun hcon => hne hcon.symm)]
  | p :: rest, k, k1, v, hne => by
    by_cases hp1 : (p.1 == k1) = true
    · simp [dict_get, List.cons_append, hp1]
    · simp [dict_get, List.cons_append, hp1, dict_get_append_ne rest k k1 v hne]

/-- Dict assignment stores the value under the assigned key. -/
theorem dict_get_set_self {α : Type} (d : List (String × α)) (k : String) (v : α) :
    dict_get (dict_set d k v) k = some v := by
  unfold dict_set
  by_cases h : d.any (fun p => p.1 == k) = true
  · rw [if_pos h]
    exact dict_get_map_set_self d k v h
  · rw [if_neg h]
    exact dict_get_append_self d k v (Bool.eq_false_iff.mpr h)

/-- Dict assignment leaves every other key unchanged. -/
theorem dict_get_set_ne {α : Type} (d : List (String × α)) (k k1 : String) (v : α)
    (hne : k1 ≠ k) :
    dict_get (dict_set d k v) k1 = dict_get d k1 := by
  unfold dict_set
  by_cases h : d.any (fun p => p.1 == k) = true
  · rw [if_pos h]
    exact dict_get_map_set_ne d k k1 v hne
  · rw [if_neg h]
    exact dict_get_append_ne d k k1 v hne

/-- C4 (evaluation at the failing input): the source's name test
`name.startswith("")` is true of every string, so the option field
`some_option` whose only positional argument is the non-flag-looking name
"bob" gets no synthesized flag name, even though `_option_name` would produce
"--some-option" for it; the resolved argument list is just the field name
followed by "bob". This contradicts the documented rule of synthesizing a flag
name whenever no existing positional argument looks like one. -/
theorem patch_names_startswith_empty_eval :
    patch_names [("some_option", ⟨.option, ["bob"], []⟩)]
      = [("some_option", ⟨.option, ["some_option", "bob"], []⟩)]
    ∧ option_name "some_option" = "--some-option"
    ∧ (["some_option", "bob"].contains "--some-option") = false := by
  refine ⟨?_, ?_, ?_⟩ <;> decide

/-- C5 (counterexample): with a trial parameter of fixed arity 2 and a
three-member tuple hint of registered types, `_eval_type` does not raise the
claimed arity-mismatch inference error: it succeeds and returns the
three-member tuple of descriptors. -/
theorem eval_type_arity_counterexample :
    eval_type "foo" (.tupleHint [.base "int", .base "str", .base "float"])
        ⟨false, false, 2⟩ default_type_inference
      = .ok (.tupleOf [.INT, .STRING, .FLOAT])
    ∧ (eval_type "foo" (.tupleHint [.base "int", .base "str", .base "float"])
        ⟨false, false, 2⟩ default_type_inference).isOk = true :=
  ⟨rfl, rfl⟩

/-- C5 (amended): for a binding without an explicit type whose trial parameter
is not multi-valued and reports fixed arity greater than one, a tuple hint has
each member looked up independently in the registry — the tuple of descriptors
is returned when every member resolves (with no check of the tuple's arity
against the trial's arity), and the descriptive inference error naming the
field and the hint is raised when a member lookup fails; any non-tuple hint
raises the same error. -/
theorem eval_type_fixed_arity_spec (key : String) (stub : Stub) (infs : Registry)
    (hm : stub.multiple = false) (hn : 1 < stub.nargs) :
    (∀ targs : List Hint,
       eval_type key (.tupleHint targs) stub infs
         = (match targs.mapM (fun a => registry_get infs a) with
            | some ts => .ok (.tupleOf ts)
            | none => .error ⟨key, .tupleHint targs⟩))
    ∧ (∀ hint : Hint, (∀ targs, hint ≠ .tupleHint targs) →
       eval_type key hint stub infs = .error ⟨key, hint⟩) := by
  have hne : ¬((stub.multiple || stub.nargs == -1) = true) := by
    rw [hm]
    simp only [Bool.false_or]
    intro hcon
    have hm1 : stub.nargs = -1 := by simpa using hcon
    omega
  constructor
  · intro targs
    unfold eval_type
    rw [if_neg hne]
    unfold eval_type_fixed
    rw [if_pos hn]
  · intro hint hnt
    unfold eval_type
    rw [if_neg hne]
    unfold eval_type_fixed
    rw [if_pos hn]
    cases hint with
    | base s => rfl
    | noneType => rfl
    | ellipsis => rfl
    | unionType l => rfl
    | typingUnion l => rfl
    | tupleHint l => exact absurd rfl (hnt l)

/-- C5 (witness): the amended theorem applied with arity 3, once at a
two-member tuple of registered types (succeeding with the mismatched
two-member descriptor tuple) and once at a non-tuple hint (raising the
inference error). -/
theorem eval_type_fixed_arity_spec_witness :
    eval_type "k" (.tupleHint [.base "int", .base "str"]) ⟨false, false, 3⟩
        default_type_inference = .ok (.tupleOf [.INT, .STRING])
    ∧ eval_type "k" (.base "int") ⟨false, false, 3⟩ default_type_inference
      = .error ⟨"k", .base "int"⟩ :=
  ⟨((eval_type_fixed_arity_spec "k" ⟨false, false, 3⟩ default_type_inference rfl
      (by decide)).1 [.base "int", .base "str"]).trans rfl,
   (eval_type_fixed_arity_spec "k" ⟨false, false, 3⟩ default_type_inference rfl
      (by decide)).2 (.base "int") (fun targs h => Hint.noConfusion h)⟩

/-- C6: after the name-resolution step, every binding in the field table —
option or argument — carries its own field name as its first positional
argument, so parse results are keyed by field name. -/
theorem field_name_first_spec (anns : List (String × DelayedCall))
    (p : String × DelayedCall) (hp : p ∈ patch_names anns) :
    p.2.args.head? = some p.1 := by
  unfold patch_names at hp
  obtain ⟨q, hq, hpq⟩ := List.mem_map.mp hp
  cases hpq
  rfl

/-- C6 (witness): the theorem applied to a one-field table holding an argument
binding with an existing positional argument. -/
theorem field_name_first_spec_witness :
    (patch_name_one "foo" ⟨.argument, ["extra"], []⟩).args.head? = some "foo" :=
  field_name_first_spec [("foo", ⟨.argument, ["extra"], []⟩)]
    ("foo", patch_name_one "foo" ⟨.argument, ["extra"], []⟩)
    (List.mem_singleton.mpr rfl)

/-- C2: a PEP 604 union containing exactly the none type plus one other type is
unwrapped by `_strip_optional` to that other type; and any PEP 604 union hint
that reaches `_eval_type` without a registry entry of its own fails with the
inference error naming the field and the union, whatever the trial parameter
reports (scalar, fixed arity, repeated, or variadic). -/
theorem union_inference_spec :
    (∀ (args : List Hint) (x : Hint),
       args.any (fun a => a.isNoneType) = true →
       args.filter (fun a => !a.isNoneType) = [x] →
       strip_optional (.unionType args) = (true, x))
    ∧ (∀ (args : List Hint) (key : String) (stub : Stub) (infs : Registry),
       registry_get infs (.unionType args) = none →
       eval_type key (.unionType args) stub infs
         = .error ⟨key, .unionType args⟩) := by
  constructor
  · intro args x hany hfilter
    simp only [strip_optional]
    rw [if_pos hany, hfilter]
  · intro args key stub infs hlook
    unfold eval_type
    by_cases h1 : (stub.multiple || stub.nargs == -1) = true
    · rw [if_pos h1]
    · rw [if_neg h1]
      unfold eval_type_fixed
      by_cases h2 : stub.nargs > 1
      · rw [if_pos h2]
      · rw [if_neg h2]
        rw [hlook]

/-- C2 (witness): the theorem applied to the optional union int-or-none
(stripping to int) and to the two-way union int-or-str with a scalar trial
against the seeded registry (failing inference). -/
theorem union_inference_spec_witness :
    strip_optional (.unionType [.base "int", .noneType]) = (true, .base "int")
    ∧ eval_type "foo" (.unionType [.base "int", .base "str"]) ⟨false, false, 1⟩
        default_type_inference
      = .error ⟨"foo", .unionType [.base "int", .base "str"]⟩ :=
  ⟨union_inference_spec.1 [.base "int", .noneType] (.base "int") rfl rfl,
   union_inference_spec.2 [.base "int", .base "str"] "foo" ⟨false, false, 1⟩
     default_type_inference rfl⟩

/-- Condition under which the requiredness resolver acts on a binding, spelled
out from the claim: the field hint is not a PEP 604 optional union, the binding
is an option, neither `required` nor `default` is set explicitly, and the trial
parameter is neither a boolean flag nor multi-valued. -/
def infer_required_cond (raw_hint : Hint) (b : DelayedCall) : Bool :=
  !(strip_optional raw_hint).1 && b.callable == .option
    && !dict_contains b.kwargs "required" && !dict_contains b.kwargs "default"
    && !(build_option_stub b.args b.kwargs).isFlag
    && !(build_option_stub b.args b.kwargs).multiple

/-- Closed form of the per-field requiredness patch: it either performs exactly
the `required=True` assignment, or does nothing, according to
`infer_required_cond`. -/
theorem patch_required_one_eq (raw_hint : Hint) (b : DelayedCall) :
    patch_required_one raw_hint b
      = if infer_required_cond raw_hint b then
          { b with kwargs := dict_set b.kwargs "required" (.boolVal true) }
        else b := by
  unfold patch_required_one infer_required_cond
  by_cases h1 : (strip_optional raw_hint).1 = true <;>
    by_cases h2 : (b.callable == Declarator.option) = true <;>
      by_cases h3 : dict_contains b.kwargs "required" = true <;>
        by_cases h4 : dict_contains b.kwargs "default" = true <;>
          by_cases h5 : (build_option_stub b.args b.kwargs).isFlag = true <;>
            by_cases h6 : (build_option_stub b.args b.kwargs).multiple = true <;>
              simp [h1, h2, h3, h4, h5, h6]

/-- C3: the requiredness resolver sets `required=True` on a binding exactly
under `infer_required_cond` — in that case the resulting binding maps
`required` to true, agrees with the input binding on every other keyword and on
its positional arguments and declarator; in every other case (optional-union
hint, argument binding, explicit `required` or `default`, boolean flag, or
multi-valued trial) the binding is returned untouched. -/
theorem patch_required_spec (raw_hint : Hint) (b : DelayedCall) :
    (infer_required_cond raw_hint b = true →
       dict_get (patch_required_one raw_hint b).kwargs "required"
         = some (.boolVal true)
       ∧ (∀ k1, k1 ≠ "required" →
            dict_get (patch_required_one raw_hint b).kwargs k1 = dict_get b.kwargs k1)
       ∧ (patch_required_one raw_hint b).args = b.args
       ∧ (patch_required_one raw_hint b).callable = b.callable)
    ∧ (infer_required_cond raw_hint b = false →
       patch_required_one raw_hint b = b) := by
  constructor
  · intro h
    rw [patch_required_one_eq, if_pos h]
    exact ⟨dict_get_set_self _ _ _,
           fun k1 hk1 => dict_get_set_ne _ _ _ _ hk1, rfl, rfl⟩
  · intro h
    rw [patch_required_one_eq, if_neg (by simp [h])]

/-- C3 (witness): the theorem applied to a non-optional int field bound as a
plain option with empty keyword arguments. -/
theorem patch_required_spec_witness :
    infer_required_cond (.base "int") ⟨.option, ["foo", "--foo"], []⟩ = true
    ∧ dict_get (patch_required_one (.base "int")
        ⟨.option, ["foo", "--foo"], []⟩).kwargs "required"
      = some (.boolVal true) :=
  ⟨by decide,
   ((patch_required_spec (.base "int") ⟨.option, ["foo", "--foo"], []⟩).1
      (by decide)).1⟩

/-- Seeded registry invariant: none of the built-in keys is an optional union. -/
theorem default_registry_no_optional (u : Hint)
    (hu : registry_contains default_type_inference u = true) :
    (strip_optional u).1 = false := by
  cases u with
  | base s => rfl
  | noneType => rfl
  | ellipsis => rfl
  | unionType l => exact Bool.noConfusion hu
  | typingUnion l => rfl
  | tupleHint l => rfl

/-- C9: on a registry holding no optional keys (the invariant the seeded
registry satisfies and registration preserves), `register_type_inference`
raises `ValueError` and leaves the registry unchanged whenever the type is
already registered and override is not allowed; raises `NotImplementedError`
and leaves the registry unchanged whenever the hint is an optional union; and
otherwise installs the entry — or removes it when the parameter type is
`None`. -/
theorem register_type_inference_spec (reg : Registry) (t : Hint)
    (pt : Option ParamType) (ov : Bool)
    (hreg : ∀ u : Hint, registry_contains reg u = true → (strip_optional u).1 = false) :
    ((registry_contains reg t = true ∧ ov = false) →
       register_type_inference reg t pt ov = (.error (.valueError t), reg))
    ∧ ((strip_optional t).1 = true →
       register_type_inference reg t pt ov = (.error (.notImplementedError t), reg))
    ∧ (((registry_contains reg t = false ∨ ov = true)
          ∧ (strip_optional t).1 = false) →
       register_type_inference reg t pt ov
         = (.ok (), match pt with
                    | none => registry_pop reg t
                    | some v => registry_set reg t v)) := by
  refine ⟨?_, ?_, ?_⟩
  · rintro ⟨hc, ho⟩
    unfold register_type_inference
    rw [if_pos (by simp [hc, ho])]
  · intro hopt
    have hc : registry_contains reg t = false := by
      by_cases h : registry_contains reg t = true
      · rw [hreg t h] at hopt
        exact Bool.noConfusion hopt
      · exact Bool.eq_false_iff.mpr h
    unfold register_type_inference
    rw [if_neg (by simp [hc]), if_pos hopt]
  · rintro ⟨hor, hopt⟩
    unfold register_type_inference
    have hcond : ¬((!ov && registry_contains reg t) = true) := by
      rcases hor with h | h
      · simp [h]
      · simp [h]
    rw [if_neg hcond, if_neg (by simp [hopt])]
    cases pt <;> rfl

/-- C9 (witness): the theorem applied to the seeded registry for each of its
three behaviors — conflicting re-registration of int, rejected registration of
the optional union Decimal-or-none, and successful registration of Decimal. -/
theorem register_type_inference_spec_witness :
    register_type_inference default_type_inference (.base "int") (some .STRING) false
      = (.error (.valueError (.base "int")), default_type_inference)
    ∧ register_type_inference default_type_inference
        (.unionType [.base "Decimal", .noneType]) (some .STRING) false
      = (.error (.notImplementedError (.unionType [.base "Decimal", .noneType])),
         default_type_inference)
    ∧ register_type_inference default_type_inference (.base "Decimal")
        (some (.custom "DecimalParamType")) false
      = (.ok (), default_type_inference
          ++ [(.base "Decimal", .custom "DecimalParamType")]) :=
  ⟨(register_type_inference_spec default_type_inference (.base "int")
      (some .STRING) false default_registry_no_optional).1 ⟨rfl, rfl⟩,
   (register_type_inference_spec default_type_inference
      (.unionType [.base "Decimal", .noneType]) (some .STRING) false
      default_registry_no_optional).2.1 rfl,
   ((register_type_inference_spec default_type_inference (.base "Decimal")
      (some (.custom "DecimalParamType")) false
      default_registry_no_optional).2.2 ⟨Or.inl rfl, rfl⟩).trans rfl⟩

/-- C10: optional detection recognizes only the PEP 604 union form — a
`typing.Optional` / `typing.Union` hint is returned unchanged and unstripped by
`_strip_optional`; consequently a scalar binding of such a hint is looked up in
the registry as the full hint (succeeding only on an explicit entry, failing
inference otherwise) and, for an option with no explicit required or default
that is neither flag nor multi-valued, the requiredness resolver still sets
`required=True` despite the declared optionality. -/
theorem pep604_optional_only_spec (l : List Hint) :
    strip_optional (.typingUnion l) = (false, .typingUnion l)
    ∧ (∀ (key : String) (stub : Stub) (infs : Registry),
         stub.multiple = false → stub.nargs = 1 →
         (∀ t, registry_get infs (.typingUnion l) = some t →
            eval_type key (.typingUnion l) stub infs = .ok (.single t))
         ∧ (registry_get infs (.typingUnion l) = none →
            eval_type key (.typingUnion l) stub infs
              = .error ⟨key, .typingUnion l⟩))
    ∧ (∀ b : DelayedCall, b.callable = .option →
         dict_contains b.kwargs "required" = false →
         dict_contains b.kwargs "default" = false →
         (build_option_stub b.args b.kwargs).isFlag = false →
         (build_option_stub b.args b.kwargs).multiple = false →
         dict_get (patch_required_one (.typingUnion l) b).kwargs "required"
           = some (.boolVal true)) := by
  refine ⟨rfl, ?_, ?_⟩
  · intro key stub infs hm hn
    have hne : ¬((stub.multiple || stub.nargs == -1) = true) := by
      simp [hm, hn]
    have h2 : ¬(stub.nargs > 1) := by
      rw [hn]
      decide
    constructor
    · intro t hsome
      unfold eval_type
      rw [if_neg hne]
      unfold eval_type_fixed
      rw [if_neg h2, hsome]
    · intro hnone
      unfold eval_type
      rw [if_neg hne]
      unfold eval_type_fixed
      rw [if_neg h2, hnone]
  · intro b hcall hreq hdef hfl hmu
    have hcond : infer_required_cond (.typingUnion l) b = true := by
      have hstrip : (strip_optional (Hint.typingUnion l)).1 = false := rfl
      simp [infer_required_cond, hstrip, hcall, hreq, hdef, hfl, hmu]
    rw [patch_required_one_eq, if_pos hcond]
    exact dict_get_set_self _ _ _

/-- C10 (witness): the theorem applied to Optional-int (the two-member
typing.Union with none), a scalar trial against the seeded registry, and a
plain option binding. -/
theorem pep604_optional_only_spec_witness :
    strip_optional (.typingUnion [.base "int", .noneType])
      = (false, .typingUnion [.base "int", .noneType])
    ∧ eval_type "foo" (.typingUnion [.base "int", .noneType]) ⟨false, false, 1⟩
        default_type_inference
      = .error ⟨"foo", .typingUnion [.base "int", .noneType]⟩
    ∧ dict_get (patch_required_one (.typingUnion [.base "int", .noneType])
        ⟨.option, ["foo", "--foo"], []⟩).kwargs "required"
      = some (.boolVal true) :=
  ⟨(pep604_optional_only_spec [.base "int", .noneType]).1,
   ((pep604_optional_only_spec [.base "int", .noneType]).2.1 "foo" ⟨false, false, 1⟩
      default_type_inference rfl rfl).2 rfl,
   (pep604_optional_only_spec [.base "int", .noneType]).2.2
      ⟨.option, ["foo", "--foo"], []⟩ rfl rfl rfl rfl rfl⟩

/-- C8 (counterexample): a record type whose only field has the variadic tuple
hint int-ellipsis, no registry entry for that (optional-stripped) hint, no
explicit `type=`, and no flag semantics — yet decoration succeeds, because the
multi-valued trial unwraps the tuple element and infers INT; no inference
error is raised at decoration (or any other) time. -/
theorem decoration_error_counterexample :
    registry_get default_type_inference
        ((strip_optional (.tupleHint [.base "int", .ellipsis])).2) = none
    ∧ dict_contains ([("multiple", KwVal.boolVal true)]) "type" = false
    ∧ (build_option_stub [] [("multiple", .boolVal true)]).isFlag = false
    ∧ (dataclass_click_resolve (fun _ => .tupleHint [.base "int", .ellipsis]) none
        [("foo", ⟨.option, [], [("multiple", .boolVal true)]⟩)]).isOk = true :=
  ⟨rfl, rfl, rfl, rfl⟩

/-- Propagation of a member inference failure through the `_patch_click_types`
loop: if any field of the table fails its per-field type patch, the whole pass
fails. -/
theorem patch_click_types_not_ok (hints : String → Hint) (infs : Registry) :
    ∀ (anns : List (String × DelayedCall)) (key : String) (b : DelayedCall),
      (key, b) ∈ anns →
      (patch_type_one infs key (hints key) b).isOk = false →
      (patch_click_types hints infs anns).isOk = false
  | [], _, _, hmem, _ => absurd hmem (List.not_mem_nil _)
  | (k0, b0) :: rest, key, b, hmem, herr => by
    unfold patch_click_types
    rcases List.mem_cons.mp hmem with heq | hrest
    · injection heq with hk hb
      subst hk
      subst hb
      cases hpt : patch_type_one infs key (hints key) b with
      | error e => rfl
      | ok b1 =>
        rw [hpt] at herr
        exact Bool.noConfusion herr
    · cases hpt : patch_type_one infs k0 (hints k0) b0 with
      | error e => rfl
      | ok b1 =>
        have hrec := patch_click_types_not_ok hints infs rest key b hrest herr
        cases hres : patch_click_types hints infs rest with
        | error e => rfl
        | ok l =>
          rw [hres] at hrec
          exact Bool.noConfusion hrec

/-- C8 (amended): for a record type containing a field whose optional-stripped
hint has no entry in the merged registry, whose binding supplies neither an
explicit `type=` nor flag semantics, and whose trial parameter is single-valued
(not multiple, fixed arity one), the inference error is raised during the
decoration call itself — the resolution pass performed while building the
decorator fails, so no command is ever built and nothing is deferred to
invocation time. -/
theorem decoration_time_error_spec (hints : String → Hint) (ov : Option Registry)
    (meta : List (String × DelayedCall)) (key : String) (b : DelayedCall)
    (hmem : (key, b) ∈ patch_names meta)
    (htype : dict_contains b.kwargs "type" = false)
    (hflag : (trial_stub b).isFlag = false)
    (hmult : (trial_stub b).multiple = false)
    (hnargs : (trial_stub b).nargs = 1)
    (hlook : registry_get (merge_inferences ov) (strip_optional (hints key)).2 = none) :
    (dataclass_click_resolve hints ov meta).isOk = false := by
  have heval : eval_type key (strip_optional (hints key)).2 (trial_stub b)
      (merge_inferences ov) = .error ⟨key, (strip_optional (hints key)).2⟩ := by
    unfold eval_type
    rw [if_neg (by simp [hmult, hnargs])]
    unfold eval_type_fixed
    rw [if_neg (by rw [hnargs]; decide), hlook]
  have herr : (patch_type_one (merge_inferences ov) key (hints key) b).isOk = false := by
    simp only [patch_type_one]
    rw [if_neg (by simp [htype]), if_neg (by simp [hflag]), heval]
    rfl
  have hfail := patch_click_types_not_ok hints (merge_inferences ov)
    (patch_names meta) key b hmem herr
  unfold dataclass_click_resolve
  cases hres : patch_click_types hints (merge_inferences ov) (patch_names meta) with
  | error e => rfl
  | ok l =>
    rw [hres] at hfail
    exact Bool.noConfusion hfail

/-- C8 (witness): the amended theorem applied to a one-field record of the
unregistered scalar type Decimal bound as a plain option. -/
theorem decoration_time_error_spec_witness :
    (("foo", (⟨.option, ["foo", "--foo"], []⟩ : DelayedCall))
        ∈ patch_names [("foo", ⟨.option, [], []⟩)])
    ∧ (dataclass_click_resolve (fun _ => .base "Decimal") none
        [("foo", ⟨.option, [], []⟩)]).isOk = false :=
  ⟨by decide,
   decoration_time_error_spec (fun _ => .base "Decimal") none
     [("foo", ⟨.option, [], []⟩)] "foo" ⟨.option, ["foo", "--foo"], []⟩
     (by decide) rfl rfl rfl rfl rfl⟩

/-- Filter congruence over members (self-contained helper). -/
theorem list_filter_congr_mem {α : Type} {p q : α → Bool} :
    ∀ (l : List α), (∀ a ∈ l, p a = q a) → l.filter p = l.filter q
  | [], _ => rfl
  | a :: rest, h => by
    have ha := h a (List.mem_cons_self a rest)
    have hrest := list_filter_congr_mem rest (fun x hx => h x (List.mem_cons_of_mem a hx))
    rw [List.filter_cons, List.filter_cons, ha, hrest]

/-- FilterMap congruence over members (self-contained helper). -/
theorem list_filterMap_congr_mem {α β : Type} {f g : α → Option β} :
    ∀ (l : List α), (∀ a ∈ l, f a = g a) → l.filterMap f = l.filterMap g
  | [], _ => rfl
  | a :: rest, h => by
    have ha := h a (List.mem_cons_self a rest)
    have hrest := list_filterMap_congr_mem rest (fun x hx => h x (List.mem_cons_of_mem a hx))
    rw [List.filterMap_cons, List.filterMap_cons, ha, hrest]

/-- Removing all entries of one key does not affect the lookup of another key. -/
theorem dict_get_filter_ne {α : Type} (key k1 : String) (hne : k1 ≠ key) :
    ∀ (d : List (String × α)),
      dict_get (d.filter (fun q => !(q.1 == key))) k1 = dict_get d k1
  | [] => rfl
  | p :: rest => by
    by_cases hpk : (p.1 == key) = true
    · have hp1 : (p.1 == k1) = false := by
        have hp : p.1 = key := by simpa using hpk
        exact str_beq_false_of_ne (fun hcon => hne (hp ▸ hcon).symm)
      rw [List.filter_cons]
      simp only [hpk, Bool.not_true, Bool.false_eq_true, if_neg, not_false_eq_true]
      rw [dict_get_filter_ne key k1 hne rest]
      simp only [dict_get, hp1]
      simp only [Bool.false_eq_true, if_neg, not_false_eq_true]
    · rw [List.filter_cons]
      simp only [Bool.not_eq_true] at hpk
      simp only [hpk, Bool.not_false, if_pos]
      simp only [dict_get]
      by_cases hp1 : (p.1 == k1) = true
      · rw [if_pos hp1, if_pos hp1]
      · rw [if_neg hp1, if_neg hp1]
        exact dict_get_filter_ne key k1 hne rest

/-- Failed lookup means every entry misses the key. -/
theorem dict_get_none_all {α : Type} (key : String) :
    ∀ (d : List (String × α)), dict_get d key = none →
      ∀ p ∈ d, (p.1 == key) = false
  | [], _, p, hp => absurd hp (List.not_mem_nil p)
  | q :: rest, h, p, hp => by
    simp only [dict_get] at h
    by_cases hq : (q.1 == key) = true
    · rw [if_pos hq] at h
      exact Option.noConfusion h
    · rw [if_neg hq] at h
      rcases List.mem_cons.mp hp with rfl | hmem
      · simpa using hq
      · exact dict_get_none_all key rest h p hmem

/-- When no entry carries the key, the pop filter is the identity. -/
theorem filter_no_key {α : Type} (key : String) (d : List (String × α))
    (h : ∀ p ∈ d, (p.1 == key) = false) :
    d.filter (fun q => !(q.1 == key)) = d := by
  induction d with
  | nil => rfl
  | cons p rest ih =>
    have hp := h p (List.mem_cons_self p rest)
    rw [List.filter_cons]
    simp only [hp, Bool.not_false, if_pos]
    rw [ih (fun q hq => h q (List.mem_cons_of_mem p hq))]

/-- Popping one key and then dropping the remaining keys equals dropping all of
them at once. -/
theorem pop_filter_filter {α : Type} (key : String) (rest : List String) :
    ∀ (d : List (String × α)),
      (d.filter (fun q => !(q.1 == key))).filter (fun p => !(rest.contains p.1))
        = d.filter (fun p => !((key :: rest).contains p.1))
  | [] => rfl
  | p :: d1 => by
    have hrec := pop_filter_filter key rest d1
    have hcont : ((key :: rest).contains p.1) = (p.1 == key || rest.contains p.1) :=
      List.contains_cons
    by_cases hpk : (p.1 == key) = true
    · rw [List.filter_cons, List.filter_cons]
      rw [hpk, hcont, hpk]
      simp only [Bool.true_or, Bool.not_true, Bool.false_eq_true, if_neg,
        not_false_eq_true]
      exact hrec
    · have hpk0 : (p.1 == key) = false := by simpa using hpk
      rw [List.filter_cons, List.filter_cons]
      rw [hpk0, hcont, hpk0]
      simp only [Bool.false_or, Bool.not_false, if_pos]
      rw [List.filter_cons]
      by_cases hr : rest.contains p.1 = true
      · rw [hr]
        simp only [Bool.not_true, Bool.false_eq_true, if_neg, not_false_eq_true]
        exact hrec
      · have hr0 : rest.contains p.1 = false := by simpa using hr
        rw [hr0]
        simp only [Bool.not_false, if_pos]
        rw [hrec]

/-- Unfolding equation of the wrapper collection loop at a nonempty field
table, stated without let bindings. -/
theorem collect_ctor_args_cons (key : String) (rest : List String)
    (kwargs : List (String × Val)) :
    collect_ctor_args (key :: rest) kwargs
      = (if (dict_pop kwargs key).1 = .dontPass
         then collect_ctor_args rest (dict_pop kwargs key).2
         else ((key, (dict_pop kwargs key).1)
                 :: (collect_ctor_args rest (dict_pop kwargs key).2).1,
               (collect_ctor_args rest (dict_pop kwargs key).2).2)) := rfl

/-- Declarative characterization of the wrapper's pop loop: on a field table
with distinct names, the construction arguments are exactly the fields present
in the keyword mapping with a non-sentinel value (in field order, with their
values), and the remaining keyword mapping is the input one minus every entry
named by a field. -/
theorem collect_ctor_args_spec :
    ∀ (keys : List String) (kwargs : List (String × Val)), keys.Nodup →
      collect_ctor_args keys kwargs
        = (keys.filterMap (fun k =>
             match dict_get kwargs k with
             | some v => if v = .dontPass then none else some (k, v)
             | none => none),
           kwargs.filter (fun p => !(keys.contains p.1)))
  | [], kwargs, _ => by
    have hfilter : ∀ (d : List (String × Val)),
        d.filter (fun p => !(([] : List String).contains p.1)) = d := by
      intro d
      induction d with
      | nil => rfl
      | cons p rest ih => exact congrArg (List.cons p) ih
    rw [collect_ctor_args, hfilter]
    rfl
  | key :: rest, kwargs, hnd => by
    have hkey : key ∉ rest := (List.nodup_cons.mp hnd).1
    have hrest : rest.Nodup := (List.nodup_cons.mp hnd).2
    rw [collect_ctor_args_cons]
    cases hget : dict_get kwargs key with
    | none =>
      have hall := dict_get_none_all key kwargs hget
      have hpop : dict_pop kwargs key = (.dontPass, kwargs) := by
        unfold dict_pop
        rw [hget]
      rw [hpop, if_pos rfl]
      rw [collect_ctor_args_spec rest kwargs hrest]
      rw [List.filterMap_cons, hget]
      have hfil : kwargs.filter (fun p => !(rest.contains p.1))
          = kwargs.filter (fun p => !((key :: rest).contains p.1)) := by
        refine list_filter_congr_mem kwargs (fun p hp => ?_)
        rw [List.contains_cons, hall p hp, Bool.false_or]
      rw [hfil]
    | some v =>
      have hpop : dict_pop kwargs key
          = (v, kwargs.filter (fun q => !(q.1 == key))) := by
        unfold dict_pop
        rw [hget]
      have hrec := collect_ctor_args_spec rest
        (kwargs.filter (fun q => !(q.1 == key))) hrest
      have hmaps : rest.filterMap (fun k =>
            match dict_get (kwargs.filter (fun q => !(q.1 == key))) k with
            | some w => if w = Val.dontPass then none else some (k, w)
            | none => none)
          = rest.filterMap (fun k =>
            match dict_get kwargs k with
            | some w => if w = Val.dontPass then none else some (k, w)
            | none => none) := by
        refine list_filterMap_congr_mem rest (fun k hk => ?_)
        rw [dict_get_filter_ne key k (fun hcon => hkey (hcon ▸ hk)) kwargs]
      rw [hmaps, pop_filter_filter key rest kwargs] at hrec
      rw [hpop, hrec]
      by_cases hv : v = Val.dontPass
      · have hhead : (match dict_get kwargs key with
            | some w => if w = Val.dontPass then none else some (key, w)
            | none => none) = none := by
          rw [hget]
          dsimp only
          rw [if_pos hv]
        rw [if_pos hv, List.filterMap_cons, hhead]
      · have hhead : (match dict_get kwargs key with
            | some w => if w = Val.dontPass then none else some (key, w)
            | none => none) = some (key, v) := by
          rw [hget]
          dsimp only
          rw [if_neg hv]
        rw [if_neg hv, List.filterMap_cons, hhead]

/-- C1: on a field table with distinct field names, one invocation of the
record-construction wrapper pops each field name from the keyword mapping with
the don't-pass sentinel as the not-found default; fields that were absent or
whose popped value is the sentinel are omitted; the record is built by the
supplied factory — the record type's constructor when no factory was given —
from exactly the remaining popped values; the record is delivered under the
chosen keyword name when one was given at decoration time and is otherwise
prepended as the first positional argument; and the wrapped function's return
value is returned unchanged. -/
theorem wrapper_spec {β : Type} (keys : List String)
    (arg_class : List (String × Val) → Val)
    (factory : Option (List (String × Val) → Val))
    (kw_name : Option String)
    (func : List Val → List (String × Val) → β)
    (args : List Val) (kwargs : List (String × Val))
    (hkeys : keys.Nodup) :
    wrapper_call keys arg_class factory kw_name func args kwargs
      = (let ctor_args := keys.filterMap (fun k =>
             match dict_get kwargs k with
             | some v => if v = .dontPass then none else some (k, v)
             | none => none)
         let remaining := kwargs.filter (fun p => !(keys.contains p.1))
         let record := (factory.getD arg_class) ctor_args
         match kw_name with
         | some name => func args (dict_set remaining name record)
         | none => func (record :: args) remaining) := by
  unfold wrapper_call
  rw [collect_ctor_args_spec keys kwargs hkeys]

/-- C1 (witness): the theorem applied to a three-field table where one field is
supplied, one carries the sentinel, and one is absent, with an extra
passthrough keyword, in keyword-injection mode. -/
theorem wrapper_spec_witness :
    (["a", "b", "c"] : List String).Nodup
    ∧ wrapper_call ["a", "b", "c"] (fun l => .payload l.length) none (some "cfg")
        (fun a k => (a, k)) []
        [("a", .payload 1), ("b", .dontPass), ("x", .payload 5)]
      = ([], [("x", Val.payload 5), ("cfg", Val.payload 1)]) :=
  ⟨by decide,
   (wrapper_spec ["a", "b", "c"] (fun l => .payload l.length) none (some "cfg")
      (fun a k => (a, k)) []
      [("a", .payload 1), ("b", .dontPass), ("x", .payload 5)]
      (by decide)).trans rfl⟩

/-- Reading after a write observes the written cell and nothing else. -/
theorem Heap.read_write (h : Heap) (i : Nat) (b : DelayedCall) (j : Nat) :
    (h.write i b).read j = if j = i then b else h.read j := rfl

/-- Writing preserves the allocation counter. -/
theorem Heap.next_write (h : Heap) (i : Nat) (b : DelayedCall) :
    (h.write i b).next = h.next := rfl

/-- Allocation writes the fresh cell and increments the counter. -/
theorem Heap.read_alloc (h : Heap) (b : DelayedCall) (j : Nat) :
    (h.alloc b).2.read j = if j = h.next then b else h.read j := rfl

/-- Allocation increments the counter by one. -/
theorem Heap.next_alloc (h : Heap) (b : DelayedCall) :
    (h.alloc b).2.next = h.next + 1 := rfl

/-- Unfolding of `read_meta` at a nonempty field table. -/
theorem read_meta_cons (k : String) (i : Nat) (ids : List (String × Nat)) (h : Heap) :
    read_meta ((k, i) :: ids) h = (k, h.read i) :: read_meta ids h := rfl

/-- Tables whose cells read equally in two heaps read to the same values. -/
theorem read_meta_congr :
    ∀ (cm : List (String × Nat)) (ha hb : Heap),
      (∀ p ∈ cm, ha.read p.2 = hb.read p.2) → read_meta cm ha = read_meta cm hb
  | [], _, _, _ => rfl
  | q :: rest, ha, hb, hr => by
    unfold read_meta
    rw [List.map_cons, List.map_cons]
    rw [hr q (List.mem_cons_self q rest)]
    have := read_meta_congr rest ha hb (fun p hp => hr p (List.mem_cons_of_mem q hp))
    unfold read_meta at this
    rw [this]

/-- A write at a cell outside a table does not change the table's values. -/
theorem read_meta_write_notin (i : Nat) (b : DelayedCall) :
    ∀ (ids : List (String × Nat)) (h : Heap),
      (∀ p ∈ ids, p.2 ≠ i) → read_meta ids (h.write i b) = read_meta ids h
  | [], _, _ => rfl
  | q :: rest, h, hni => by
    rw [show (q : String × Nat) = (q.1, q.2) from rfl, read_meta_cons, read_meta_cons]
    rw [Heap.read_write]
    rw [if_neg (hni q (List.mem_cons_self q rest))]
    rw [read_meta_write_notin i b rest h
      (fun p hp => hni p (List.mem_cons_of_mem q hp))]

/-- Unfolding equation of `alloc_all` at a nonempty table, without lets. -/
theorem alloc_all_cons (k : String) (b : DelayedCall)
    (rest : List (String × DelayedCall)) (h : Heap) :
    alloc_all ((k, b) :: rest) h
      = ((k, (h.alloc b).1) :: (alloc_all rest (h.alloc b).2).1,
         (alloc_all rest (h.alloc b).2).2) := rfl

/-- Behavior of the copying allocation of `_collect_click_annotations`: the
allocation counter advances by the table length; cells below the old counter
are untouched; the produced table keeps the field names in order, references
only freshly allocated pairwise-distinct cells, and reads back to exactly the
input binding values. -/
theorem alloc_all_spec :
    ∀ (meta : List (String × DelayedCall)) (h : Heap),
      (alloc_all meta h).2.next = h.next + meta.length
      ∧ (∀ j, j < h.next → (alloc_all meta h).2.read j = h.read j)
      ∧ ((alloc_all meta h).1.map Prod.fst = meta.map Prod.fst)
      ∧ (∀ p ∈ (alloc_all meta h).1,
           h.next ≤ p.2 ∧ p.2 < (alloc_all meta h).2.next)
      ∧ read_meta (alloc_all meta h).1 (alloc_all meta h).2 = meta
      ∧ ((alloc_all meta h).1.map Prod.snd).Nodup
  | [], h => by
    refine ⟨rfl, fun j _ => rfl, rfl, ?_, rfl, List.nodup_nil⟩
    intro p hp
    exact absurd hp (List.not_mem_nil p)
  | (k, b) :: rest, h => by
    obtain ⟨ih1, ih2, ih3, ih4, ih5, ih6⟩ := alloc_all_spec rest (h.alloc b).2
    have hnext1 : (h.alloc b).2.next = h.next + 1 := rfl
    rw [alloc_all_cons]
    refine ⟨?_, ?_, ?_, ?_, ?_, ?_⟩
    · show (alloc_all rest (h.alloc b).2).2.next = h.next + (rest.length + 1)
      rw [ih1, hnext1]
      omega
    · intro j hj
      show (alloc_all rest (h.alloc b).2).2.read j = h.read j
      rw [ih2 j (by rw [hnext1]; omega)]
      rw [Heap.read_alloc, if_neg (by omega)]
    · rw [List.map_cons, List.map_cons, ih3]
    · intro p hp
      rcases List.mem_cons.mp hp with rfl | hmem
      · refine ⟨le_rfl, ?_⟩
        show h.next < (alloc_all rest (h.alloc b).2).2.next
        rw [ih1, hnext1]
        omega
      · obtain ⟨hl, hr⟩ := ih4 p hmem
        rw [hnext1] at hl
        exact ⟨by omega, hr⟩
    · rw [show ((h.alloc b).1 : Nat) = h.next from rfl, read_meta_cons]
      rw [ih2 h.next (by rw [hnext1]; omega)]
      rw [Heap.read_alloc, if_pos rfl, ih5]
    · rw [List.map_cons]
      refine List.nodup_cons.mpr ⟨?_, ih6⟩
      intro hmem
      obtain ⟨p, hp, hpe⟩ := List.mem_map.mp hmem
      obtain ⟨hl, _⟩ := ih4 p hp
      rw [hnext1] at hl
      have hpe2 : p.2 = (k, (h.alloc b).1).2 := hpe
      have hpe3 : p.2 = h.next := hpe2
      omega

/-- Behavior of an in-place per-field mutation sweep over a table of distinct
cells: the allocation counter is preserved, cells outside the table are
untouched, and the table's values are mapped by the per-field function. -/
theorem apply_at_spec (f : String → DelayedCall → DelayedCall) :
    ∀ (ids : List (String × Nat)) (h : Heap),
      (apply_at f ids h).next = h.next
      ∧ (∀ j, (∀ p ∈ ids, p.2 ≠ j) → (apply_at f ids h).read j = h.read j)
      ∧ ((ids.map Prod.snd).Nodup →
         read_meta ids (apply_at f ids h)
           = (read_meta ids h).map (fun p => (p.1, f p.1 p.2)))
  | [], h => ⟨rfl, fun _ _ => rfl, fun _ => rfl⟩
  | (k, i) :: rest, h => by
    obtain ⟨ih1, ih2, ih3⟩ := apply_at_spec f rest (h.write i (f k (h.read i)))
    have happ : apply_at f ((k, i) :: rest) h
        = apply_at f rest (h.write i (f k (h.read i))) := rfl
    rw [happ]
    refine ⟨?_, ?_, ?_⟩
    · rw [ih1]
      rfl
    · intro j hj
      rw [ih2 j (fun p hp => hj p (List.mem_cons_of_mem _ hp))]
      rw [Heap.read_write,
        if_neg (fun hcon => (hj (k, i) (List.mem_cons_self _ _)) hcon.symm)]
    · intro hnd
      rw [List.map_cons] at hnd
      obtain ⟨hni, hndrest⟩ := List.nodup_cons.mp hnd
      have hninrest : ∀ p ∈ rest, p.2 ≠ i :=
        fun p hp hcon => hni (List.mem_map.mpr ⟨p, hp, hcon⟩)
      rw [read_meta_cons, read_meta_cons, List.map_cons]
      rw [ih2 i hninrest, Heap.read_write, if_pos rfl]
      rw [ih3 hndrest]
      rw [read_meta_write_notin i (f k (h.read i)) rest h hninrest]

/-- Correspondence of the heap form of the `_patch_click_types` loop with the
value-level pass: on a table of distinct cells the heap loop fails exactly when
the value-level pass fails (with the same error); on success it preserves the
allocation counter, touches no cell outside the table, and leaves the table
reading back as the value-level result. -/
theorem patch_types_heap_spec (hints : String → Hint) (infs : Registry) :
    ∀ (ids : List (String × Nat)) (h : Heap), (ids.map Prod.snd).Nodup →
      (∀ e, patch_click_types hints infs (read_meta ids h) = .error e →
         patch_types_heap hints infs ids h = .error e)
      ∧ (∀ l, patch_click_types hints infs (read_meta ids h) = .ok l →
         ∃ h1, patch_types_heap hints infs ids h = .ok h1
           ∧ h1.next = h.next
           ∧ (∀ j, (∀ p ∈ ids, p.2 ≠ j) → h1.read j = h.read j)
           ∧ read_meta ids h1 = l)
  | [], h, _ => by
    constructor
    · intro e he
      exact Except.noConfusion he
    · intro l hl
      refine ⟨h, rfl, rfl, fun _ _ => rfl, ?_⟩
      injection hl with hl2
  | (k, i) :: rest, h, hnd => by
    rw [List.map_cons] at hnd
    obtain ⟨hni, hndrest⟩ := List.nodup_cons.mp hnd
    have hninrest : ∀ p ∈ rest, p.2 ≠ i :=
      fun p hp hcon => hni (List.mem_map.mpr ⟨p, hp, hcon⟩)
    cases hpt : patch_type_one infs k (hints k) (h.read i) with
    | error e0 =>
      have hpure : patch_click_types hints infs (read_meta ((k, i) :: rest) h)
          = .error e0 := by
        rw [read_meta_cons]
        unfold patch_click_types
        rw [hpt]
      constructor
      · intro e he
        rw [hpure] at he
        injection he with he2
        show patch_types_heap hints infs ((k, i) :: rest) h = .error e
        unfold patch_types_heap
        rw [hpt, he2]
      · intro l hl
        rw [hpure] at hl
        exact Except.noConfusion hl
    | ok b1 =>
      obtain ⟨ihe, iho⟩ := patch_types_heap_spec hints infs rest (h.write i b1) hndrest
      have hmeta : read_meta rest (h.write i b1) = read_meta rest h :=
        read_meta_write_notin i b1 rest h hninrest
      cases hrest : patch_click_types hints infs (read_meta rest h) with
      | error e0 =>
        have hpure : patch_click_types hints infs (read_meta ((k, i) :: rest) h)
            = .error e0 := by
          rw [read_meta_cons]
          unfold patch_click_types
          rw [hpt, hrest]
        constructor
        · intro e he
          rw [hpure] at he
          injection he with he2
          show patch_types_heap hints infs ((k, i) :: rest) h = .error e
          unfold patch_types_heap
          rw [hpt, ← he2]
          exact ihe e0 (by rw [hmeta]; exact hrest)
        · intro l hl
          rw [hpure] at hl
          exact Except.noConfusion hl
      | ok l0 =>
        have hpure : patch_click_types hints infs (read_meta ((k, i) :: rest) h)
            = .ok ((k, b1) :: l0) := by
          rw [read_meta_cons]
          unfold patch_click_types
          rw [hpt, hrest]
        constructor
        · intro e he
          rw [hpure] at he
          exact Except.noConfusion he
        · intro l hl
          rw [hpure] at hl
          injection hl with hl2
          obtain ⟨h2, hh2, hnext, hframe, hread⟩ :=
            iho l0 (by rw [hmeta]; exact hrest)
          refine ⟨h2, ?_, ?_, ?_, ?_⟩
          · show patch_types_heap hints infs ((k, i) :: rest) h = .ok h2
            unfold patch_types_heap
            rw [hpt]
            exact hh2
          · rw [hnext]
            rfl
          · intro j hj
            rw [hframe j (fun p hp => hj p (List.mem_cons_of_mem _ hp))]
            rw [Heap.read_write,
              if_neg (fun hcon => (hj (k, i) (List.mem_cons_self _ _)) hcon.symm)]
          · rw [← hl2, read_meta_cons]
            rw [hframe i hninrest, Heap.read_write, if_pos rfl, hread]

/-- Unfolding equation of a heap resolution pass, without lets. -/
theorem resolve_heap_eq (hints : String → Hint) (ov : Option Registry)
    (cm : List (String × Nat)) (h : Heap) :
    resolve_heap hints ov cm h
      = (match patch_types_heap hints (merge_inferences ov)
             (alloc_all (read_meta cm h) h).1
             (apply_at patch_name_one (alloc_all (read_meta cm h) h).1
               (alloc_all (read_meta cm h) h).2) with
         | .error e => .error e
         | .ok h3 => .ok ((alloc_all (read_meta cm h) h).1,
             apply_at (fun k b => patch_required_one (hints k) b)
               (alloc_all (read_meta cm h) h).1 h3)) := rfl

/-- Correspondence of a heap resolution pass with the value-level pass: the
heap pass fails exactly when `dataclass_click_resolve` fails on the values the
class metadata reads to, and on success its field table names the same fields,
references only cells allocated by this pass (all at or above the incoming
allocation counter), leaves every cell below the incoming counter untouched,
and reads back to exactly the value-level resolution result. -/
theorem resolve_heap_spec (hints : String → Hint) (ov : Option Registry)
    (cm : List (String × Nat)) (h : Heap) :
    (∀ e, dataclass_click_resolve hints ov (read_meta cm h) = .error e →
       resolve_heap hints ov cm h = .error e)
    ∧ (∀ r, dataclass_click_resolve hints ov (read_meta cm h) = .ok r →
       ∃ ids h1, resolve_heap hints ov cm h = .ok (ids, h1)
         ∧ ids.map Prod.fst = cm.map Prod.fst
         ∧ (∀ p ∈ ids, h.next ≤ p.2 ∧ p.2 < h1.next)
         ∧ (∀ j, j < h.next → h1.read j = h.read j)
         ∧ read_meta ids h1 = r) := by
  obtain ⟨ha1, ha2, ha3, ha4, ha5, ha6⟩ := alloc_all_spec (read_meta cm h) h
  obtain ⟨hn1, hn2, hn3⟩ :=
    apply_at_spec patch_name_one (alloc_all (read_meta cm h) h).1
      (alloc_all (read_meta cm h) h).2
  have hMnames : read_meta (alloc_all (read_meta cm h) h).1
      (apply_at patch_name_one (alloc_all (read_meta cm h) h).1
        (alloc_all (read_meta cm h) h).2)
      = patch_names (read_meta cm h) := by
    rw [hn3 ha6, ha5]
    rfl
  obtain ⟨hte, hto⟩ := patch_types_heap_spec hints (merge_inferences ov)
    (alloc_all (read_meta cm h) h).1
    (apply_at patch_name_one (alloc_all (read_meta cm h) h).1
      (alloc_all (read_meta cm h) h).2) ha6
  constructor
  · intro e he
    have hpct : patch_click_types hints (merge_inferences ov)
        (patch_names (read_meta cm h)) = .error e := by
      unfold dataclass_click_resolve at he
      cases hres : patch_click_types hints (merge_inferences ov)
          (patch_names (read_meta cm h)) with
      | error e1 =>
        rw [hres] at he
        injection he with he2
        rw [he2]
      | ok l =>
        rw [hres] at he
        exact Except.noConfusion he
    have hheap := hte e (by rw [hMnames]; exact hpct)
    rw [resolve_heap_eq, hheap]
  · intro r hr
    have hpct : ∃ l, patch_click_types hints (merge_inferences ov)
        (patch_names (read_meta cm h)) = .ok l ∧ r = patch_required hints l := by
      unfold dataclass_click_resolve at hr
      cases hres : patch_click_types hints (merge_inferences ov)
          (patch_names (read_meta cm h)) with
      | error e1 =>
        rw [hres] at hr
        exact Except.noConfusion hr
      | ok l =>
        rw [hres] at hr
        injection hr with hr2
        exact ⟨l, rfl, hr2.symm⟩
    obtain ⟨l, hl, hrl⟩ := hpct
    obtain ⟨h3, hh3, hnext3, hframe3, hread3⟩ := hto l (by rw [hMnames]; exact hl)
    obtain ⟨hq1, hq2, hq3⟩ :=
      apply_at_spec (fun k b => patch_required_one (hints k) b)
        (alloc_all (read_meta cm h) h).1 h3
    refine ⟨(alloc_all (read_meta cm h) h).1,
            apply_at (fun k b => patch_required_one (hints k) b)
              (alloc_all (read_meta cm h) h).1 h3, ?_, ?_, ?_, ?_, ?_⟩
    · rw [resolve_heap_eq, hh3]
    · rw [ha3]
      show ((cm.map (fun p => (p.1, h.read p.2))).map Prod.fst) = cm.map Prod.fst
      rw [List.map_map]
      rfl
    · intro p hp
      obtain ⟨hl4, hr4⟩ := ha4 p hp
      refine ⟨hl4, ?_⟩
      rw [hq1, hnext3, hn1]
      exact hr4
    · intro j hj
      have hnotin : ∀ p ∈ (alloc_all (read_meta cm h) h).1, p.2 ≠ j := by
        intro p hp hcon
        obtain ⟨hl4, _⟩ := ha4 p hp
        omega
      rw [hq2 j hnotin, hframe3 j hnotin, hn2 j hnotin, ha2 j hj]
    · rw [hq3 ha6, hread3, hrl]
      rfl

/-- C7: resolving the same record metadata twice (binding it to a second
command) causes no field-name duplication and no cross-command leakage: the
binding objects produced by the first pass are bit-for-bit unchanged by the
second pass, the second pass's bindings read back to exactly the same resolved
values as the first pass's, and both passes key their tables by the same field
names — because each pass works on its own freshly allocated copies of the
class's annotation metadata. -/
theorem resolve_twice_frame_spec (hints : String → Hint) (ov : Option Registry)
    (cm : List (String × Nat)) (h0 : Heap)
    (hcm : ∀ p ∈ cm, p.2 < h0.next)
    (hA : (resolve_heap hints ov cm h0).isOk = true) :
    (∀ p ∈ resolve_heap_ids hints ov cm h0,
       (resolve_heap_out hints ov cm (resolve_heap_out hints ov cm h0)).read p.2
         = (resolve_heap_out hints ov cm h0).read p.2)
    ∧ read_meta (resolve_heap_ids hints ov cm (resolve_heap_out hints ov cm h0))
        (resolve_heap_out hints ov cm (resolve_heap_out hints ov cm h0))
      = read_meta (resolve_heap_ids hints ov cm h0)
          (resolve_heap_out hints ov cm h0)
    ∧ (resolve_heap_ids hints ov cm (resolve_heap_out hints ov cm h0)).map Prod.fst
      = (resolve_heap_ids hints ov cm h0).map Prod.fst := by
  obtain ⟨hAe, hAo⟩ := resolve_heap_spec hints ov cm h0
  cases hp : dataclass_click_resolve hints ov (read_meta cm h0) with
  | error e =>
    rw [hAe e hp] at hA
    exact Bool.noConfusion hA
  | ok r =>
    obtain ⟨ids, h1, hres1, hnames1, hbounds1, hlow1, hread1⟩ := hAo r hp
    have hM : read_meta cm h1 = read_meta cm h0 :=
      read_meta_congr cm h1 h0 (fun p hp2 => hlow1 p.2 (hcm p hp2))
    obtain ⟨hBe, hBo⟩ := resolve_heap_spec hints ov cm h1
    obtain ⟨ids2, h2, hres2, hnames2, hbounds2, hlow2, hread2⟩ :=
      hBo r (by rw [hM]; exact hp)
    have hidsA : resolve_heap_ids hints ov cm h0 = ids := by
      unfold resolve_heap_ids
      rw [hres1]
    have houtA : resolve_heap_out hints ov cm h0 = h1 := by
      unfold resolve_heap_out
      rw [hres1]
    have hidsB : resolve_heap_ids hints ov cm (resolve_heap_out hints ov cm h0)
        = ids2 := by
      rw [houtA]
      unfold resolve_heap_ids
      rw [hres2]
    have houtB : resolve_heap_out hints ov cm (resolve_heap_out hints ov cm h0)
        = h2 := by
      rw [houtA]
      unfold resolve_heap_out
      rw [hres2]
    refine ⟨?_, ?_, ?_⟩
    · intro p hpmem
      rw [hidsA] at hpmem
      rw [houtB, houtA]
      obtain ⟨_, hup⟩ := hbounds1 p hpmem
      exact hlow2 p.2 hup
    · rw [hidsB, houtB, hidsA, houtA, hread2, hread1]
    · rw [hidsB, hidsA, hnames2, hnames1]

/-- Pristine annotation object used by the two-pass witness heap. -/
def c7_binding : DelayedCall := ⟨.option, [], []⟩

/-- Witness heap: the class metadata object for field foo lives at cell 0 and
the allocation counter starts at 1. -/
def c7_heap : Heap := ⟨fun _ => c7_binding, 1⟩

/-- C7 (witness): the theorem applied to a one-field int option record resolved
twice from the same metadata cell. -/
theorem resolve_twice_frame_spec_witness :
    (resolve_heap_out (fun _ => .base "int") none [("foo", 0)]
        (resolve_heap_out (fun _ => .base "int") none [("foo", 0)] c7_heap)).read 1
      = (resolve_heap_out (fun _ => .base "int") none [("foo", 0)] c7_heap).read 1
    ∧ read_meta (resolve_heap_ids (fun _ => .base "int") none [("foo", 0)]
          (resolve_heap_out (fun _ => .base "int") none [("foo", 0)] c7_heap))
        (resolve_heap_out (fun _ => .base "int") none [("foo", 0)]
          (resolve_heap_out (fun _ => .base "int") none [("foo", 0)] c7_heap))
      = read_meta (resolve_heap_ids (fun _ => .base "int") none [("foo", 0)] c7_heap)
          (resolve_heap_out (fun _ => .base "int") none [("foo", 0)] c7_heap) :=
  ⟨(resolve_twice_frame_spec (fun _ => .base "int") none [("foo", 0)] c7_heap
      (by decide) (by decide)).1 ("foo", 1) (by decide),
   (resolve_twice_frame_spec (fun _ => .base "int") none [("foo", 0)] c7_heap
      (by decide) (by decide)).2.1⟩
